import Mathlib

/-!
A verification development for the core of the bigtools BBI (BigWig/BigBed)
toolkit.  The definitions below are shallow embeddings of the Rust source
(`src/utils.rs`, `src/bbi/bbiread.rs`, `src/bbi/bigbedread.rs`):

* genomic coordinates (`u32` in the source) are modelled as `Nat`;
* `f32` signal values are modelled as `Rat`: the only operations the modelled
  code performs on them are addition and comparison with `0.0`, which the
  rational model reflects faithfully for the properties considered here;
* fallible operations return `Option`/`Except`; a `panic!`/failed `assert!`
  is modelled as `none`;
* on-disk bytes are modelled as `List Nat` (each entry one byte).
-/

namespace Bigtools

/-- `Value` from `src/bigwig` (a bedGraph-style record): a half-open interval
`[start, end)` carrying a signal value.  The `f32` value is modelled as `Rat`. -/
structure Value where
  start : Nat
  «end» : Nat
  value : Rat
deriving DecidableEq, Repr

/-- `merge_into` from `src/utils.rs` (lines 12-308).  Returns the 4-tuple
`(val, Option val, Option val, Option overhang)` exactly as the source; the
source's `panic!("No overlap.")` (taken when `one.end <= two.start`) is
modelled as `none`. -/
def merge_into (one two : Value) :
    Option (Value × Option Value × Option Value × Option Value) :=
  if one.«end» ≤ two.start then
    none
  else if one.start = two.start then
    if one.«end» = two.«end» then
      some (⟨one.start, one.«end», one.value + two.value⟩, none, none, none)
    else if one.«end» < two.«end» then
      some (⟨one.start, one.«end», one.value + two.value⟩, none, none,
        some ⟨one.«end», two.«end», two.value⟩)
    else
      if two.value = 0 then
        some (one, none, none, none)
      else
        some (⟨two.start, two.«end», one.value + two.value⟩,
          some ⟨two.«end», one.«end», one.value⟩, none, none)
  else if one.start < two.start then
    if one.«end» = two.«end» then
      if two.value = 0 then
        some (⟨one.start, one.«end», one.value⟩, none, none, none)
      else
        some (⟨one.start, two.start, one.value⟩,
          some ⟨two.start, two.«end», one.value + two.value⟩, none, none)
    else if one.«end» < two.«end» then
      if one.value = 0 ∧ two.value = 0 then
        some (one, none, none, some ⟨one.«end», two.«end», 0⟩)
      else if one.value = 0 then
        some (⟨one.start, two.start, 0⟩,
          some ⟨two.start, one.«end», two.value⟩, none,
          some ⟨one.«end», two.«end», two.value⟩)
      else if two.value = 0 then
        some (one, none, none, some ⟨one.«end», two.«end», 0⟩)
      else
        some (⟨one.start, two.start, one.value⟩,
          some ⟨two.start, one.«end», one.value + two.value⟩, none,
          some ⟨one.«end», two.«end», two.value⟩)
    else
      if two.value = 0 then
        some (one, none, none, none)
      else
        some (⟨one.start, two.start, one.value⟩,
          some ⟨two.start, two.«end», one.value + two.value⟩,
          some ⟨two.«end», one.«end», one.value⟩, none)
  else
    if one.«end» = two.«end» then
      if one.value = 0 then
        some (two, none, none, none)
      else
        some (⟨two.start, one.start, two.value⟩,
          some ⟨one.start, one.«end», one.value + two.value⟩, none, none)
    else if one.«end» < two.«end» then
      if one.value = 0 then
        some (two, none, none, none)
      else
        some (⟨two.start, one.start, two.value⟩,
          some ⟨one.start, one.«end», one.value + two.value⟩, none,
          some ⟨one.«end», two.«end», two.value⟩)
    else
      if one.value = 0 ∧ two.value = 0 then
        some (⟨two.start, one.«end», 0⟩, none, none, none)
      else if one.value = 0 then
        some (two, some ⟨two.«end», one.«end», one.value⟩, none, none)
      else if two.value = 0 then
        some (⟨two.start, one.start, 0⟩,
          some ⟨one.start, one.«end», one.value⟩, none, none)
      else
        some (⟨two.start, one.start, two.value⟩,
          some ⟨one.start, two.«end», one.value + two.value⟩,
          some ⟨two.«end», one.«end», one.value⟩, none)

/-- The list of output pieces of `merge_into`, in output order: the primary
piece, then the optional second and third pieces, then the optional overhang.
Empty if `merge_into` panics. -/
def mergePieces (one two : Value) : List Value :=
  match merge_into one two with
  | none => []
  | some (a, b, c, o) => a :: (b.toList ++ c.toList ++ o.toList)

/-- Two pieces are disjoint when their half-open ranges do not intersect. -/
def disjointV (a b : Value) : Prop := a.«end» ≤ b.start ∨ b.«end» ≤ a.start

/-- `p` covers base `i`. -/
def coversV (p : Value) (i : Nat) : Prop := p.start ≤ i ∧ i < p.«end»

/-- Sum, over a list of pieces, of the value of each piece covering base `i`. -/
def pieceSum (ps : List Value) (i : Nat) : Rat :=
  (ps.map (fun p => if p.start ≤ i ∧ i < p.«end» then p.value else 0)).sum


/-! ## The multi-source merge engine (`merge_sections_many`, `src/utils.rs` 310-512)

`ValueIter::next` walks forward in windows of `DATA_SIZE` bases.  Its per-base
`f32` accumulator `vec![0f32; DATA_SIZE]` is modelled as a function
`Nat → Rat`; the per-window body is split into the stages below (consume the
input sections into the accumulator, run-length-encode it, insert the carried
`last_val`, emit all but the last encoded entry). -/

def DATA_SIZE : Nat := 50000

/-- `std::f32::EPSILON` (`2^-23`), the run-equality tolerance of the RLE loop. -/
def F32_EPSILON : Rat := 1 / 8388608

/-- The zero-initialised window accumulator (`vec![0f32; DATA_SIZE]`). -/
def zeroData : Nat → Rat := fun _ => 0

/-- `for i in &mut data[ds..de] { *i += value }` (utils.rs 366-368). -/
def addRange (data : Nat → Rat) (ds de : Nat) (v : Rat) : Nat → Rat :=
  fun i => if ds ≤ i ∧ i < de then data i + v else data i

/-- Outcome of handling one pulled value inside the `'section` loop:
either the value is stashed back into the section's `last` slot (`break`),
or the loop continues pulling. -/
inductive PullStep where
  | stash (data : Nat → Rat) (v : Value)
  | cont (data : Nat → Rat)

/-- The body of the `'section` loop for one pulled value (utils.rs 359-373). -/
def applyValue (cs : Nat) (data : Nat → Rat) (v : Value) : PullStep :=
  let dataStart := max cs v.start - cs
  if DATA_SIZE ≤ dataStart then .stash data v
  else
    let dataEnd := min DATA_SIZE (v.«end» - cs)
    let data' := addRange data dataStart dataEnd v.value
    if DATA_SIZE ≤ v.«end» - cs then .stash data' v
    else .cont data'

/-- Pull values from a section's remaining list until one is stashed or the
list is exhausted.  Returns the updated accumulator, the stashed `last`
value, the rest of the list, and whether any value was pulled
(`all_none = false`). -/
def consumeList (cs : Nat) : List Value → (Nat → Rat) →
    ((Nat → Rat) × Option Value × List Value × Bool)
  | [], data => (data, none, [], false)
  | v :: rest, data =>
    match applyValue cs data v with
    | .stash data' v' => (data', some v', rest, true)
    | .cont data' =>
      let r := consumeList cs rest data'
      (r.1, r.2.1, r.2.2.1, true)

/-- The `'section` loop for one section `(remaining values, buffered last)`:
a buffered `last.take()` is handled first (utils.rs 346-347). -/
def consumeSection (cs : Nat) (sec : List Value × Option Value) (data : Nat → Rat) :
    ((Nat → Rat) × (List Value × Option Value) × Bool) :=
  match sec.2 with
  | some v =>
    match applyValue cs data v with
    | .stash data' v' => (data', (sec.1, some v'), true)
    | .cont data' =>
      let r := consumeList cs sec.1 data'
      (r.1, (r.2.2.1, r.2.1), true)
  | none =>
    let r := consumeList cs sec.1 data
    (r.1, (r.2.2.1, r.2.1), r.2.2.2)

/-- The `'sections` loop (utils.rs 344): every section adds into the shared
accumulator; the returned `Bool` is the negation of `all_none`. -/
def consumeAll (cs : Nat) : List (List Value × Option Value) → (Nat → Rat) →
    ((Nat → Rat) × List (List Value × Option Value) × Bool)
  | [], data => (data, [], false)
  | sec :: rest, data =>
    let r := consumeSection cs sec data
    let r2 := consumeAll cs rest r.1
    (r2.1, r.2.1 :: r2.2.1, r.2.2 || r2.2.2)

/-- The run-length-encoding loop over the window accumulator
(utils.rs 378-417): `cur` is the `current : Option (start, end, value)` run,
runs are compared with `(c.2 - *i).abs() < f32::EPSILON`, and zero-valued
runs are suppressed.  Iterates over exactly `DATA_SIZE` cells via the
countdown argument. -/
def rleGo (cs : Nat) (data : Nat → Rat) :
    Nat → Nat → Option (Nat × Nat × Rat) → List Value → List Value
  | 0, _, cur, acc =>
    match cur with
    | none => acc
    | some c => if c.2.2 ≠ 0 then acc ++ [⟨c.1, c.2.1, c.2.2⟩] else acc
  | n + 1, idx, cur, acc =>
    let x := data idx
    match cur with
    | none => rleGo cs data n (idx + 1) (some (idx + cs, idx + cs + 1, x)) acc
    | some c =>
      if |c.2.2 - x| < F32_EPSILON then
        rleGo cs data n (idx + 1) (some (c.1, c.2.1 + 1, c.2.2)) acc
      else if c.2.2 ≠ 0 then
        rleGo cs data n (idx + 1) (some (idx + cs, idx + cs + 1, x)) (acc ++ [⟨c.1, c.2.1, c.2.2⟩])
      else
        rleGo cs data n (idx + 1) (some (idx + cs, idx + cs + 1, x)) acc

/-- RLE of one window's accumulator into zero-suppressed `Value`s. -/
def rle (cs : Nat) (data : Nat → Rat) : List Value := rleGo cs data DATA_SIZE 0 none []

/-- One front-to-back scan of the queue inside `insert_into_queue`
(utils.rs 427-474): insert before the first later entry, skip earlier
entries, or merge with the first overlapping entry (second and third merge
pieces are inserted right after it); returns the updated queue and the
overhang to propagate, `none` for the source's `unreachable!()`. -/
def scanQueue : List Value → Value → Option (List Value × Option Value)
  | [], _ => none
  | q :: rest, iv =>
    if iv.«end» ≤ q.start then some (iv :: q :: rest, none)
    else if q.«end» ≤ iv.start then
      (scanQueue rest iv).map (fun r => (q :: r.1, r.2))
    else
      match merge_into q iv with
      | none => none
      | some (one, two, three, overhang) =>
        some (one :: (two.toList ++ three.toList ++ rest), overhang)

/-- `insert_into_queue` (utils.rs 419-477): push at the back when the value
starts after the whole queue, otherwise scan and re-loop with the overhang.
Fuel bounds the `'insert` loop; `none` models `unreachable!()`/panic. -/
def insert_into_queue : Nat → List Value → Value → Option (List Value)
  | 0, _, _ => none
  | fuel + 1, queue, iv =>
    match queue.getLast? with
    | none => some (queue ++ [iv])
    | some l =>
      if l.«end» ≤ iv.start then some (queue ++ [iv])
      else
        match scanQueue queue iv with
        | none => none
        | some (q', none) => some q'
        | some (q', some o) => insert_into_queue fuel q' o

/-- The mutable state of `ValueIter` (utils.rs 310-319); the buffered
`next_sections` output is handled by the driver `runMerge` instead. -/
structure MergeState where
  sections : List (List Value × Option Value)
  last_val : Option Value
  next_start : Nat
deriving Repr

/-- The tail of a window body once the accumulator has been encoded into
`queue0` (utils.rs 479-495): insert the carried `last_val`, retain the last
encoded entry as the new `last_val`, emit the rest. -/
def windowRest2 (cs : Nat) (queue0 : List Value)
    (rest : List (List Value × Option Value) × Bool) (lastVal : Option Value) :
    Option (List Value × Bool × MergeState) :=
  let q1 : Option (List Value) :=
    match lastVal with
    | none => some queue0
    | some lv => insert_into_queue (queue0.length + 2) queue0 lv
  match q1 with
  | none => none
  | some queue1 =>
    match queue1.getLast? with
    | none => some ([], !rest.2, ⟨rest.1, none, cs + DATA_SIZE⟩)
    | some l => some (queue1.dropLast, !rest.2, ⟨rest.1, some l, cs + DATA_SIZE⟩)

def windowRest (cs : Nat) (r : (Nat → Rat) × List (List Value × Option Value) × Bool)
    (lastVal : Option Value) : Option (List Value × Bool × MergeState) :=
  windowRest2 cs (rle cs r.1) r.2 lastVal

/-- One iteration of the window `loop` in `ValueIter::next` (utils.rs
337-495): returns the values emitted by this window, the `all_none` flag and
the successor state. -/
def windowStep (st : MergeState) : Option (List Value × Bool × MergeState) :=
  windowRest st.next_start (consumeAll st.next_start st.sections zeroData) st.last_val

/-- Drives `windowStep` the way the iterator is drained: a window with a
non-empty chunk emits it and continues; an `all_none` window emits the
pending `last_val` and ends the stream (utils.rs 484-495). -/
def runMerge : Nat → MergeState → Option (List Value)
  | 0, _ => none
  | fuel + 1, st =>
    match windowStep st with
    | none => none
    | some (chunk, allNone, st') =>
      if chunk ≠ [] then (runMerge fuel st').map (chunk ++ ·)
      else if allNone then some st'.last_val.toList
      else runMerge fuel st'

/-- `merge_sections_many` (utils.rs 500-512): every input section starts with
no buffered value, `last_val = None`, `next_start = 0`.  The result is the
full stream collected from the iterator. -/
def merge_sections_many (sections : List (List Value)) (fuel : Nat) : Option (List Value) :=
  runMerge fuel ⟨sections.map (fun s => (s, none)), none, 0⟩

/-- The accumulator contents of the first window for the C6 example inputs. -/
def d1 : Nat → Rat := addRange (addRange (addRange zeroData 0 10 1) 10 20 2) 5 15 3

/-! ## `fill` / `fill_start_to_end` (`src/utils.rs` 514-605) -/

/-- The state of `FillValues` (utils.rs 514-522); the input iterator of
`io::Result<Value>` is a list of `Except Unit Value`. -/
structure FillValues where
  iter : List (Except Unit Value)
  last_val : Option Value
  expected_end : Option Nat
  last_end : Nat
deriving Repr

/-- `FillValues::next` (utils.rs 530-569): emit a buffered value, a gap
filler, the next input value, an input error, or the final pad up to
`expected_end`; `none` ends the stream. -/
def FillValues.next (st : FillValues) : Option (Except Unit Value × FillValues) :=
  match st.last_val with
  | some last => some (.ok last, { st with last_val := none, last_end := last.«end» })
  | none =>
    match st.iter with
    | .ok next :: rest =>
      if st.last_end < next.start then
        some (.ok ⟨st.last_end, next.start, 0⟩,
          { st with iter := rest, last_val := some next, last_end := next.start })
      else
        some (.ok next, { st with iter := rest, last_end := next.«end» })
    | .error e :: rest => some (.error e, { st with iter := rest })
    | [] =>
      match st.expected_end with
      | none => none
      | some ee =>
        if st.last_end < ee then
          some (.ok ⟨st.last_end, ee, 0⟩, { st with last_end := ee })
        else none

/-- Collect the stream of a `FillValues` iterator. -/
def runFill : Nat → FillValues → List (Except Unit Value)
  | 0, _ => []
  | fuel + 1, st =>
    match st.next with
    | none => []
    | some (item, st') => item :: runFill fuel st'

/-- `fill` (utils.rs 575-585). -/
def fill (iter : List (Except Unit Value)) : FillValues :=
  ⟨iter, none, none, 0⟩

/-- `fill_start_to_end` (utils.rs 591-605). -/
def fill_start_to_end (iter : List (Except Unit Value)) (s e : Nat) : FillValues :=
  ⟨iter, none, some e, s⟩



/-! ## Opening a BBI file: magic-number dispatch (`src/bbi/bbiread.rs` 250-263)

The host running the Rust code is little-endian (`u32::to_le` is the identity
and `u32::to_be` swaps bytes), and `bytes::Buf::get_u32` reads big-endian. -/

/-- `BBIFile` from `src/bbi` (the module file itself is not under the provided
sources; the variants are used throughout `bbiread.rs`). -/
inductive BBIFile where
  | bigWig
  | bigBed
deriving DecidableEq, Repr

/-- `byteordered::Endianness`. -/
inductive Endianness where
  | big
  | little
deriving DecidableEq, Repr

/-- `BBIFileReadInfoError` (bbiread.rs 87-95). -/
inductive BBIFileReadInfoError where
  | UnknownMagic
  | InvalidChroms
  | IoError
deriving DecidableEq, Repr

/-- Modelled from the spec: the BigWig magic `0x888FFC26`.  The constant
`BIGWIG_MAGIC` lives in `src/bbi/mod.rs`, which is not among the provided
sources. -/
def BIGWIG_MAGIC : Nat := 0x888FFC26

/-- Modelled from the spec: the BigBed magic `0x8789F2EB` (`BIGBED_MAGIC`
from `src/bbi/mod.rs`, not among the provided sources). -/
def BIGBED_MAGIC : Nat := 0x8789F2EB

/-- Byte-swap of a `u32`. -/
def u32_swap_bytes (x : Nat) : Nat :=
  x % 256 * 16777216 + x / 256 % 256 * 65536 + x / 65536 % 256 * 256 + x / 16777216 % 256

/-- `u32::to_le` on a little-endian host: the identity. -/
def u32_to_le (x : Nat) : Nat := x

/-- `u32::to_be` on a little-endian host: a byte swap. -/
def u32_to_be (x : Nat) : Nat := u32_swap_bytes x

/-- `bytes::Buf::get_u32`: big-endian read of four bytes. -/
def get_u32_be (b0 b1 b2 b3 : Nat) : Nat := ((b0 * 256 + b1) * 256 + b2) * 256 + b3

/-- The magic-dispatch head of `read_info` (bbiread.rs 256-263), applied to
the first four bytes of the file. -/
def read_info_magic (b0 b1 b2 b3 : Nat) : Except BBIFileReadInfoError (BBIFile × Endianness) :=
  let magic := get_u32_be b0 b1 b2 b3
  if magic = u32_to_le BIGWIG_MAGIC then .ok (.bigWig, .big)
  else if magic = u32_to_be BIGWIG_MAGIC then .ok (.bigWig, .little)
  else if magic = u32_to_le BIGBED_MAGIC then .ok (.bigBed, .big)
  else if magic = u32_to_be BIGBED_MAGIC then .ok (.bigBed, .little)
  else .error .UnknownMagic

/-- Following the spec's words: the big-endian four-byte encoding of a `u32`,
used to compare `read_info_magic` with the spec's description. -/
def beBytesSpec (x : Nat) : List Nat :=
  [x / 16777216 % 256, x / 65536 % 256, x / 256 % 256, x % 256]

/-- Following the spec's words: the little-endian four-byte encoding of a
`u32`. -/
def leBytesSpec (x : Nat) : List Nat :=
  [x % 256, x / 256 % 256, x / 65536 % 256, x / 16777216 % 256]

/-! ## Decoding BigBed data blocks (`src/bbi/bigbedread.rs` 274-325)

A decompressed block is a byte sequence (`List Nat`, one entry per byte).
`String::from_utf8(..).unwrap()` on the record tail is not modelled: the tail
is carried as raw bytes, which none of the claims inspect. -/

abbrev Bytes := List Nat

/-- `BBIReadError` (bbiread.rs 108-120); the `BedValueError` payload and the
wrapped `io::Error` are collapsed to unit-like variants. -/
inductive BBIReadError where
  | InvalidChromosome (name : String)
  | UnknownMagic
  | InvalidFile (reason : String)
  | IoError
deriving DecidableEq, Repr

/-- A `u32` read honouring the file's endianness
(`ByteOrdered::runtime(.., endianness).read_u32()`); fewer than four
remaining bytes is the `UnexpectedEof` I/O error, modelled as `none`. -/
def read_u32 (en : Endianness) : Bytes → Option (Nat × Bytes)
  | b0 :: b1 :: b2 :: b3 :: rest =>
    match en with
    | .big => some (((b0 * 256 + b1) * 256 + b2) * 256 + b3, rest)
    | .little => some (((b3 * 256 + b2) * 256 + b1) * 256 + b0, rest)
  | _ => none

/-- The four-byte encoding that `read_u32` reads back. -/
def encodeU32 (en : Endianness) (x : Nat) : Bytes :=
  match en with
  | .big => [x / 16777216 % 256, x / 65536 % 256, x / 256 % 256, x % 256]
  | .little => [x % 256, x / 256 % 256, x / 65536 % 256, x / 16777216 % 256]

/-- `BedEntry` from `src/bbi` (start, end, and the NUL-terminated
tab-delimited tail, carried as raw bytes). -/
structure BedEntry where
  start : Nat
  «end» : Nat
  rest : Bytes
deriving DecidableEq, Repr

/-- `.bytes().take_while(|c| c != 0)` (bigbedread.rs 300-309): bytes up to
and consuming the first NUL, or up to end of block. -/
def takeUntilNul : Bytes → (Bytes × Bytes)
  | [] => ([], [])
  | b :: rest =>
    if b = 0 then ([], rest)
    else
      let r := takeUntilNul rest
      (b :: r.1, r.2)

/-- Result of the closure `read_entry` (bigbedread.rs 286-316): a decoded
entry and the remaining bytes, an `Err` (end-of-buffer I/O error, or the
`InvalidFile` error for a `start == 0 && end == 0` record), or a panic of the
`assert_eq!(chrom_id, expected_chrom, ..)`. -/
inductive ReadEntryResult where
  | ok (entry : BedEntry) (rest : Bytes)
  | eofErr
  | invalidFileErr
  | panicked
deriving DecidableEq, Repr

/-- The closure `read_entry` (bigbedread.rs 286-316). -/
def read_entry (en : Endianness) (expected_chrom : Nat) (bs : Bytes) : ReadEntryResult :=
  match read_u32 en bs with
  | none => .eofErr
  | some (chrom_id, bs1) =>
    match read_u32 en bs1 with
    | none => .eofErr
    | some (chrom_start, bs2) =>
      match read_u32 en bs2 with
      | none => .eofErr
      | some (chrom_end, bs3) =>
        if chrom_start = 0 ∧ chrom_end = 0 then .invalidFileErr
        else if chrom_id ≠ expected_chrom then .panicked
        else
          let r := takeUntilNul bs3
          .ok ⟨chrom_start, chrom_end, r.1⟩ r.2

/-- The `while let Ok(entry) = read_entry()` loop of `get_block_entries`
(bigbedread.rs 317-321): any `Err` from `read_entry` ends the loop and the
entries collected so far are returned as `Ok`; entries are kept when
`entry.end >= start && entry.start <= end`.  Fuel bounds the loop; a panic
is `none`. -/
def get_block_entries_go (en : Endianness) (expected s e : Nat) :
    Nat → Bytes → List BedEntry → Option (List BedEntry)
  | 0, _, _ => none
  | fuel + 1, bs, acc =>
    match read_entry en expected bs with
    | .ok entry rest =>
      get_block_entries_go en expected s e fuel rest
        (if s ≤ entry.«end» ∧ entry.start ≤ e then acc ++ [entry] else acc)
    | .eofErr => some acc
    | .invalidFileErr => some acc
    | .panicked => none

/-- `get_block_entries` (bigbedread.rs 274-325), applied to the decompressed
bytes of one block; each successful parse consumes at least twelve bytes, so
`length + 1` fuel suffices. -/
def get_block_entries (en : Endianness) (expected s e : Nat) (bs : Bytes) :
    Option (List BedEntry) :=
  get_block_entries_go en expected s e (bs.length + 1) bs []

/-- `IntervalIter::next` (bigbedread.rs 41-73) drained to a list: each block
in turn is decoded with `get_block_entries`; an `Err` from it would be
surfaced as an item (the model's decode never errors after decompression,
but the item type mirrors the source). -/
def intervalIterItems (en : Endianness) (expected s e : Nat) :
    List Bytes → Option (List (Except BBIReadError BedEntry))
  | [] => some []
  | blockData :: restBlocks =>
    match get_block_entries en expected s e blockData with
    | none => none
    | some entries =>
      (intervalIterItems en expected s e restBlocks).map
        (fun items => entries.map .ok ++ items)

/-! ## Decoding zoom blocks (`src/bbi/bbiread.rs` 756-906)

The four `f32` summary fields are copied from disk without arithmetic, so
they are carried as their raw four-byte values. -/

/-- `Summary` from `src/bbi`: `total_items`, `bases_covered`
(`u64::from(u32)`), and the four float fields carried as raw `u32` bit
patterns. -/
structure Summary where
  total_items : Nat
  bases_covered : Nat
  min_val : Nat
  max_val : Nat
  sum : Nat
  sum_squares : Nat
deriving DecidableEq, Repr

/-- `ZoomRecord` from `src/bbi`. -/
structure ZoomRecord where
  chrom : Nat
  start : Nat
  «end» : Nat
  summary : Summary
deriving DecidableEq, Repr

/-- One 32-byte zoom record read (bbiread.rs 777-784 / 804-811): note
`total_items` is set to `0`, never read from disk. -/
def read_zoom_record (en : Endianness) (bs : Bytes) : Option (ZoomRecord × Bytes) :=
  match read_u32 en bs with
  | none => none
  | some (chrom_id, bs1) =>
    match read_u32 en bs1 with
    | none => none
    | some (chrom_start, bs2) =>
      match read_u32 en bs2 with
      | none => none
      | some (chrom_end, bs3) =>
        match read_u32 en bs3 with
        | none => none
        | some (bases_covered, bs4) =>
          match read_u32 en bs4 with
          | none => none
          | some (min_val, bs5) =>
            match read_u32 en bs5 with
            | none => none
            | some (max_val, bs6) =>
              match read_u32 en bs6 with
              | none => none
              | some (sum, bs7) =>
                match read_u32 en bs7 with
                | none => none
                | some (sum_squares, bs8) =>
                  some (⟨chrom_id, chrom_start, chrom_end,
                    ⟨0, bases_covered, min_val, max_val, sum, sum_squares⟩⟩, bs8)

/-- The `for _ in 0..itemcount` loop of `get_zoom_block_values`
(bbiread.rs 776-800): records are kept when
`chrom_id == chrom && chrom_end >= start && chrom_start <= end`. -/
def zoom_records_go (en : Endianness) (chrom s e : Nat) :
    Nat → Bytes → List ZoomRecord → Option (List ZoomRecord)
  | 0, _, acc => some acc
  | n + 1, bs, acc =>
    match read_zoom_record en bs with
    | none => none
    | some (r, rest) =>
      zoom_records_go en chrom s e n rest
        (if r.chrom = chrom ∧ s ≤ r.«end» ∧ r.start ≤ e then acc ++ [r] else acc)

/-- `get_zoom_block_values` (bbiread.rs 756-833) on the decompressed bytes of
one block; `assert_eq!(len % (4 * 8), 0)` is a panic, modelled `none`. -/
def get_zoom_block_values (en : Endianness) (chrom s e : Nat) (bs : Bytes) :
    Option (List ZoomRecord) :=
  if bs.length % 32 ≠ 0 then none
  else zoom_records_go en chrom s e (bs.length / 32) bs []

/-- `ZoomIntervalIter::next` (bbiread.rs 867-906) drained to a list. -/
def zoomIterItems (en : Endianness) (chrom s e : Nat) :
    List Bytes → Option (List (Except BBIReadError ZoomRecord))
  | [] => some []
  | blockData :: restBlocks =>
    match get_zoom_block_values en chrom s e blockData with
    | none => none
    | some records =>
      (zoomIterItems en chrom s e restBlocks).map
        (fun items => records.map .ok ++ items)

/-! ## The CIR (R-) tree search (`src/bbi/bbiread.rs` 521-720)

The on-disk tree (leaf nodes of 32-byte entries, internal nodes of 24-byte
entries reached through child offsets) is modelled as an inductive tree; the
search recursion mirrors `search_overlapping_blocks`. -/

/-- `Block` (bbiread.rs 15-19). -/
structure Block where
  offset : Nat
  size : Nat
deriving DecidableEq, Repr

/-- `compare_position` (bbiread.rs 521-534): lexicographic comparison of
`(chrom, base)` positions, returning `-1`, `0`, or `1`. -/
def compare_position (chrom1 chrom1_base chrom2 chrom2_base : Nat) : Int :=
  if chrom1 < chrom2 then -1
  else if chrom1 > chrom2 then 1
  else if chrom1_base < chrom2_base then -1
  else if chrom1_base > chrom2_base then 1
  else 0

/-- `overlaps` (bbiread.rs 536-548). -/
def overlaps (chromq chromq_start chromq_end chromb1 chromb1_start chromb2 chromb2_end :
    Nat) : Bool :=
  decide (compare_position chromq chromq_start chromb2 chromb2_end ≤ 0) &&
    decide (0 ≤ compare_position chromq chromq_end chromb1 chromb1_start)

/-- The `(start_chrom_ix, start_base, end_chrom_ix, end_base)` bounds stored
in every tree entry. -/
structure CirEntryBounds where
  start_chrom_ix : Nat
  start_base : Nat
  end_chrom_ix : Nat
  end_base : Nat
deriving DecidableEq, Repr

/-- A 32-byte leaf entry: bounds plus `(data_offset, data_size)`. -/
structure CirLeafEntry where
  bounds : CirEntryBounds
  data_offset : Nat
  data_size : Nat
deriving DecidableEq, Repr

/-- The CIR tree: a leaf node's entry list, or an internal node's list of
`(bounds, child)` pairs (the child offset resolved to the child node). -/
inductive CirTree where
  | leaf (entries : List CirLeafEntry)
  | node (children : List (CirEntryBounds × CirTree))
deriving Repr

/-- `overlaps` applied to an entry's bounds, argument order as at the call
sites (bbiread.rs 634-642 and 701-709). -/
def overlapsBounds (chrom_ix start stop : Nat) (b : CirEntryBounds) : Bool :=
  overlaps chrom_ix start stop b.start_chrom_ix b.start_base b.end_chrom_ix b.end_base

/-- `search_overlapping_blocks` (bbiread.rs 550-720): a leaf pushes the
blocks of its overlapping entries in order; an internal node collects the
overlapping children and recurses into them in order (the child list is
walked element by element, which yields the same blocks in the same order as
the source's two-phase collect-then-recurse loop). -/
def search_overlapping_blocks : CirTree → Nat → Nat → Nat → List Block
  | .leaf entries, chrom_ix, start, stop =>
    (entries.filter (fun en => overlapsBounds chrom_ix start stop en.bounds)).map
      (fun en => ⟨en.data_offset, en.data_size⟩)
  | .node [], _, _, _ => []
  | .node ((b, child) :: rest), chrom_ix, start, stop =>
    (if overlapsBounds chrom_ix start stop b then
      search_overlapping_blocks child chrom_ix start stop
    else []) ++ search_overlapping_blocks (.node rest) chrom_ix start stop

/-- The leaf entries of a tree in in-order traversal order. -/
def inorderEntries : CirTree → List CirLeafEntry
  | .leaf entries => entries
  | .node [] => []
  | .node ((_, child) :: rest) => inorderEntries child ++ inorderEntries (.node rest)

/-- A leaf entry lies within an internal entry's bounds (lexicographically on
`(chrom, base)`). -/
def containedIn (en : CirLeafEntry) (b : CirEntryBounds) : Bool :=
  decide (compare_position b.start_chrom_ix b.start_base
    en.bounds.start_chrom_ix en.bounds.start_base ≤ 0) &&
  decide (compare_position en.bounds.end_chrom_ix en.bounds.end_base
    b.end_chrom_ix b.end_base ≤ 0)

/-- Well-formedness of a CIR tree: every internal entry's bounds contain the
bounds of every leaf entry beneath it. -/
def wellFormed : CirTree → Bool
  | .leaf _ => true
  | .node [] => true
  | .node ((b, child) :: rest) =>
    (inorderEntries child).all (fun en => containedIn en b) &&
      wellFormed child && wellFormed (.node rest)

/-! ## `search_cir_tree` and `get_interval` (`src/bbi/bbiread.rs` 153-232,
`src/bbi/bigbedread.rs` 181-206)

The file is abstracted to the CIR-tree header magic, the tree itself, and a
map from blocks to their decompressed bytes. -/

/-- `ChromInfo` (bbiread.rs 41-47). -/
structure ChromInfo where
  name : String
  length : Nat
  id : Nat
deriving DecidableEq, Repr

/-- `CirTreeSearchError` (bbiread.rs 97-105). -/
inductive CirTreeSearchError where
  | InvalidChromosome (name : String)
  | UnknownMagic
  | IoError
deriving DecidableEq, Repr

/-- Modelled from the spec: the CIR-tree magic `0x2468ACE0`
(`CIR_TREE_MAGIC` from `src/bbi/mod.rs`, not among the provided sources). -/
def CIR_TREE_MAGIC : Nat := 0x2468ACE0

/-- `search_cir_tree` (bbiread.rs 155-222): the chromosome lookup happens
first, before any file access; then the tree-header magic is checked and the
tree searched. -/
def search_cir_tree (chrom_info : List ChromInfo) (cirMagic : Nat) (tree : CirTree)
    (chrom_name : String) (start stop : Nat) : Except CirTreeSearchError (List Block) :=
  match chrom_info.find? (fun x => x.name == chrom_name) with
  | none => .error (.InvalidChromosome chrom_name)
  | some c =>
    if cirMagic ≠ CIR_TREE_MAGIC then .error .UnknownMagic
    else .ok (search_overlapping_blocks tree c.id start stop)

/-- `impl From<CirTreeSearchError> for BBIReadError` (bbiread.rs 122-130). -/
def convertCirErr : CirTreeSearchError → BBIReadError
  | .InvalidChromosome chrom => .InvalidChromosome chrom
  | .UnknownMagic => .UnknownMagic
  | .IoError => .IoError

/-- `BigBedRead::get_interval` (bigbedread.rs 181-206): search the full-data
CIR tree (propagating its error), re-find the chromosome id (`.unwrap()`,
`none` = panic, unreachable after a successful search), then drain the
interval iterator over the returned blocks. -/
def get_interval (chrom_info : List ChromInfo) (en : Endianness) (cirMagic : Nat)
    (tree : CirTree) (blockData : Block → Bytes) (chrom_name : String) (start stop : Nat) :
    Option (Except BBIReadError (List (Except BBIReadError BedEntry))) :=
  match search_cir_tree chrom_info cirMagic tree chrom_name start stop with
  | .error err => some (.error (convertCirErr err))
  | .ok blocks =>
    match chrom_info.find? (fun x => x.name == chrom_name) with
    | none => none
    | some c => (intervalIterItems en c.id start stop (blocks.map blockData)).map .ok

/-- Helper: a nonempty piece list means `merge_into` did not panic. -/
theorem isSome_of_mergePieces_ne_nil (one two : Value)
    (h : mergePieces one two ≠ []) : (merge_into one two).isSome := by
  unfold mergePieces at h
  cases hm : merge_into one two <;> rw [hm] at h <;> simp_all

set_option maxHeartbeats 1600000 in
/-- C3: for every pair of overlapping `Value`s, the pieces returned by
`merge_into(one, two)` (primary, optional second and third, optional overhang)
are pairwise non-overlapping, together cover exactly
`[min(one.start, two.start), max(one.end, two.end))`, and at every base the
value of the covering output piece equals the sum of the values of the
input(s) covering that base. -/
theorem merge_into_correct (one two : Value)
    (h1 : one.start < one.«end») (h2 : two.start < two.«end»)
    (h3 : two.start < one.«end») (h4 : one.start < two.«end») :
    (merge_into one two).isSome ∧
    (mergePieces one two).Pairwise disjointV ∧
    (∀ i : Nat, (∃ p ∈ mergePieces one two, p.start ≤ i ∧ i < p.«end») ↔
      (min one.start two.start ≤ i ∧ i < max one.«end» two.«end»)) ∧
    (∀ i : Nat, pieceSum (mergePieces one two) i =
      (if one.start ≤ i ∧ i < one.«end» then one.value else 0) +
      (if two.start ≤ i ∧ i < two.«end» then two.value else 0)) := by
  by_cases hab : one.start = two.start
  · by_cases hAB : one.«end» = two.«end»
    · -- case 1
      have e : mergePieces one two = [⟨one.start, one.«end», one.value + two.value⟩] := by
        unfold mergePieces merge_into
        split_ifs <;> first | rfl | (exfalso; omega) | contradiction | simp_all
      refine ⟨isSome_of_mergePieces_ne_nil one two (by rw [e]; simp), ?_, fun i => ?_, fun i => ?_⟩
      · rw [e]
        simp [List.pairwise_cons, disjointV]
        try omega
      · rw [e]
        simp only [List.mem_cons, List.mem_singleton, List.not_mem_nil, or_false,
          exists_eq_or_imp, exists_eq_left, false_and, exists_false]
        omega
      · rw [e]
        simp only [pieceSum, List.map_cons, List.map_nil, List.sum_cons, List.sum_nil, add_zero]
        split_ifs <;>
          first
          | (exfalso; omega)
          | ring1
          | (simp only [*, add_zero, zero_add]; first | done | ring1)
    · by_cases hAB2 : one.«end» < two.«end»
      · -- case 2
        have e : mergePieces one two = [⟨one.start, one.«end», one.value + two.value⟩, ⟨one.«end», two.«end», two.value⟩] := by
          unfold mergePieces merge_into
          split_ifs <;> first | rfl | (exfalso; omega) | contradiction | simp_all
        refine ⟨isSome_of_mergePieces_ne_nil one two (by rw [e]; simp), ?_, fun i => ?_, fun i => ?_⟩
        · rw [e]
          simp [List.pairwise_cons, disjointV]
          try omega
        · rw [e]
          simp only [List.mem_cons, List.mem_singleton, List.not_mem_nil, or_false,
            exists_eq_or_imp, exists_eq_left, false_and, exists_false]
          omega
        · rw [e]
          simp only [pieceSum, List.map_cons, List.map_nil, List.sum_cons, List.sum_nil, add_zero]
          split_ifs <;>
            first
            | (exfalso; omega)
            | ring1
            | (simp only [*, add_zero, zero_add]; first | done | ring1)
      · by_cases hv : two.value = 0
        · -- case 3
          have e : mergePieces one two = [one] := by
            unfold mergePieces merge_into
            split_ifs <;> first | rfl | (exfalso; omega) | contradiction | simp_all
          refine ⟨isSome_of_mergePieces_ne_nil one two (by rw [e]; simp), ?_, fun i => ?_, fun i => ?_⟩
          · rw [e]
            simp [List.pairwise_cons, disjointV]
            try omega
          · rw [e]
            simp only [List.mem_cons, List.mem_singleton, List.not_mem_nil, or_false,
              exists_eq_or_imp, exists_eq_left, false_and, exists_false]
            omega
          · rw [e]
            simp only [pieceSum, List.map_cons, List.map_nil, List.sum_cons, List.sum_nil, add_zero]
            split_ifs <;>
              first
              | (exfalso; omega)
              | ring1
              | (simp only [*, add_zero, zero_add]; first | done | ring1)
        · -- case 4
          have e : mergePieces one two = [⟨two.start, two.«end», one.value + two.value⟩, ⟨two.«end», one.«end», one.value⟩] := by
            unfold mergePieces merge_into
            split_ifs <;> first | rfl | (exfalso; omega) | contradiction | simp_all
          refine ⟨isSome_of_mergePieces_ne_nil one two (by rw [e]; simp), ?_, fun i => ?_, fun i => ?_⟩
          · rw [e]
            simp [List.pairwise_cons, disjointV]
            try omega
          · rw [e]
            simp only [List.mem_cons, List.mem_singleton, List.not_mem_nil, or_false,
              exists_eq_or_imp, exists_eq_left, false_and, exists_false]
            omega
          · rw [e]
            simp only [pieceSum, List.map_cons, List.map_nil, List.sum_cons, List.sum_nil, add_zero]
            split_ifs <;>
              first
              | (exfalso; omega)
              | ring1
              | (simp only [*, add_zero, zero_add]; first | done | ring1)
  · by_cases hab2 : one.start < two.start
    · by_cases hAB : one.«end» = two.«end»
      · by_cases hv : two.value = 0
        · -- case 5
          have e : mergePieces one two = [⟨one.start, one.«end», one.value⟩] := by
            unfold mergePieces merge_into
            split_ifs <;> first | rfl | (exfalso; omega) | contradiction | simp_all
          refine ⟨isSome_of_mergePieces_ne_nil one two (by rw [e]; simp), ?_, fun i => ?_, fun i => ?_⟩
          · rw [e]
            simp [List.pairwise_cons, disjointV]
            try omega
          · rw [e]
            simp only [List.mem_cons, List.mem_singleton, List.not_mem_nil, or_false,
              exists_eq_or_imp, exists_eq_left, false_and, exists_false]
            omega
          · rw [e]
            simp only [pieceSum, List.map_cons, List.map_nil, List.sum_cons, List.sum_nil, add_zero]
            split_ifs <;>
              first
              | (exfalso; omega)
              | ring1
              | (simp only [*, add_zero, zero_add]; first | done | ring1)
        · -- case 6
          have e : mergePieces one two = [⟨one.start, two.start, one.value⟩, ⟨two.start, two.«end», one.value + two.value⟩] := by
            unfold mergePieces merge_into
            split_ifs <;> first | rfl | (exfalso; omega) | contradiction | simp_all
          refine ⟨isSome_of_mergePieces_ne_nil one two (by rw [e]; simp), ?_, fun i => ?_, fun i => ?_⟩
          · rw [e]
            simp [List.pairwise_cons, disjointV]
            try omega
          · rw [e]
            simp only [List.mem_cons, List.mem_singleton, List.not_mem_nil, or_false,
              exists_eq_or_imp, exists_eq_left, false_and, exists_false]
            omega
          · rw [e]
            simp only [pieceSum, List.map_cons, List.map_nil, List.sum_cons, List.sum_nil, add_zero]
            split_ifs <;>
              first
              | (exfalso; omega)
              | ring1
              | (simp only [*, add_zero, zero_add]; first | done | ring1)
      · by_cases hAB2 : one.«end» < two.«end»
        · by_cases hu : one.value = 0
          · by_cases hv : two.value = 0
            · -- case 7
              have e : mergePieces one two = [one, ⟨one.«end», two.«end», (0 : Rat)⟩] := by
                unfold mergePieces merge_into
                split_ifs <;> first | rfl | (exfalso; omega) | contradiction | simp_all
              refine ⟨isSome_of_mergePieces_ne_nil one two (by rw [e]; simp), ?_, fun i => ?_, fun i => ?_⟩
              · rw [e]
                simp [List.pairwise_cons, disjointV]
                try omega
              · rw [e]
                simp only [List.mem_cons, List.mem_singleton, List.not_mem_nil, or_false,
                  exists_eq_or_imp, exists_eq_left, false_and, exists_false]
                omega
              · rw [e]
                simp only [pieceSum, List.map_cons, List.map_nil, List.sum_cons, List.sum_nil, add_zero]
                split_ifs <;>
                  first
                  | (exfalso; omega)
                  | ring1
                  | (simp only [*, add_zero, zero_add]; first | done | ring1)
            · -- case 8
              have e : mergePieces one two = [⟨one.start, two.start, (0 : Rat)⟩, ⟨two.start, one.«end», two.value⟩, ⟨one.«end», two.«end», two.value⟩] := by
                unfold mergePieces merge_into
                split_ifs <;> first | rfl | (exfalso; omega) | contradiction | simp_all
              refine ⟨isSome_of_mergePieces_ne_nil one two (by rw [e]; simp), ?_, fun i => ?_, fun i => ?_⟩
              · rw [e]
                simp [List.pairwise_cons, disjointV]
                try omega
              · rw [e]
                simp only [List.mem_cons, List.mem_singleton, List.not_mem_nil, or_false,
                  exists_eq_or_imp, exists_eq_left, false_and, exists_false]
                omega
              · rw [e]
                simp only [pieceSum, List.map_cons, List.map_nil, List.sum_cons, List.sum_nil, add_zero]
                split_ifs <;>
                  first
                  | (exfalso; omega)
                  | ring1
                  | (simp only [*, add_zero, zero_add]; first | done | ring1)
          · by_cases hv : two.value = 0
            · -- case 9
              have e : mergePieces one two = [one, ⟨one.«end», two.«end», (0 : Rat)⟩] := by
                unfold mergePieces merge_into
                split_ifs <;> first | rfl | (exfalso; omega) | contradiction | simp_all
              refine ⟨isSome_of_mergePieces_ne_nil one two (by rw [e]; simp), ?_, fun i => ?_, fun i => ?_⟩
              · rw [e]
                simp [List.pairwise_cons, disjointV]
                try omega
              · rw [e]
                simp only [List.mem_cons, List.mem_singleton, List.not_mem_nil, or_false,
                  exists_eq_or_imp, exists_eq_left, false_and, exists_false]
                omega
              · rw [e]
                simp only [pieceSum, List.map_cons, List.map_nil, List.sum_cons, List.sum_nil, add_zero]
                split_ifs <;>
                  first
                  | (exfalso; omega)
                  | ring1
                  | (simp only [*, add_zero, zero_add]; first | done | ring1)
            · -- case 10
              have e : mergePieces one two = [⟨one.start, two.start, one.value⟩, ⟨two.start, one.«end», one.value + two.value⟩, ⟨one.«end», two.«end», two.value⟩] := by
                unfold mergePieces merge_into
                split_ifs <;> first | rfl | (exfalso; omega) | contradiction | simp_all
              refine ⟨isSome_of_mergePieces_ne_nil one two (by rw [e]; simp), ?_, fun i => ?_, fun i => ?_⟩
              · rw [e]
                simp [List.pairwise_cons, disjointV]
                try omega
              · rw [e]
                simp only [List.mem_cons, List.mem_singleton, List.not_mem_nil, or_false,
                  exists_eq_or_imp, exists_eq_left, false_and, exists_false]
                omega
              · rw [e]
                simp only [pieceSum, List.map_cons, List.map_nil, List.sum_cons, List.sum_nil, add_zero]
                split_ifs <;>
                  first
                  | (exfalso; omega)
                  | ring1
                  | (simp only [*, add_zero, zero_add]; first | done | ring1)
        · by_cases hv : two.value = 0
          · -- case 11
            have e : mergePieces one two = [one] := by
              unfold mergePieces merge_into
              split_ifs <;> first | rfl | (exfalso; omega) | contradiction | simp_all
            refine ⟨isSome_of_mergePieces_ne_nil one two (by rw [e]; simp), ?_, fun i => ?_, fun i => ?_⟩
            · rw [e]
              simp [List.pairwise_cons, disjointV]
              try omega
            · rw [e]
              simp only [List.mem_cons, List.mem_singleton, List.not_mem_nil, or_false,
                exists_eq_or_imp, exists_eq_left, false_and, exists_false]
              omega
            · rw [e]
              simp only [pieceSum, List.map_cons, List.map_nil, List.sum_cons, List.sum_nil, add_zero]
              split_ifs <;>
                first
                | (exfalso; omega)
                | ring1
                | (simp only [*, add_zero, zero_add]; first | done | ring1)
          · -- case 12
            have e : mergePieces one two = [⟨one.start, two.start, one.value⟩, ⟨two.start, two.«end», one.value + two.value⟩, ⟨two.«end», one.«end», one.value⟩] := by
              unfold mergePieces merge_into
              split_ifs <;> first | rfl | (exfalso; omega) | contradiction | simp_all
            refine ⟨isSome_of_mergePieces_ne_nil one two (by rw [e]; simp), ?_, fun i => ?_, fun i => ?_⟩
            · rw [e]
              simp [List.pairwise_cons, disjointV]
              try omega
            · rw [e]
              simp only [List.mem_cons, List.mem_singleton, List.not_mem_nil, or_false,
                exists_eq_or_imp, exists_eq_left, false_and, exists_false]
              omega
            · rw [e]
              simp only [pieceSum, List.map_cons, List.map_nil, List.sum_cons, List.sum_nil, add_zero]
              split_ifs <;>
                first
                | (exfalso; omega)
                | ring1
                | (simp only [*, add_zero, zero_add]; first | done | ring1)
    · by_cases hAB : one.«end» = two.«end»
      · by_cases hu : one.value = 0
        · -- case 13
          have e : mergePieces one two = [two] := by
            unfold mergePieces merge_into
            split_ifs <;> first | rfl | (exfalso; omega) | contradiction | simp_all
          refine ⟨isSome_of_mergePieces_ne_nil one two (by rw [e]; simp), ?_, fun i => ?_, fun i => ?_⟩
          · rw [e]
            simp [List.pairwise_cons, disjointV]
            try omega
          · rw [e]
            simp only [List.mem_cons, List.mem_singleton, List.not_mem_nil, or_false,
              exists_eq_or_imp, exists_eq_left, false_and, exists_false]
            omega
          · rw [e]
            simp only [pieceSum, List.map_cons, List.map_nil, List.sum_cons, List.sum_nil, add_zero]
            split_ifs <;>
              first
              | (exfalso; omega)
              | ring1
              | (simp only [*, add_zero, zero_add]; first | done | ring1)
        · -- case 14
          have e : mergePieces one two = [⟨two.start, one.start, two.value⟩, ⟨one.start, one.«end», one.value + two.value⟩] := by
            unfold mergePieces merge_into
            split_ifs <;> first | rfl | (exfalso; omega) | contradiction | simp_all
          refine ⟨isSome_of_mergePieces_ne_nil one two (by rw [e]; simp), ?_, fun i => ?_, fun i => ?_⟩
          · rw [e]
            simp [List.pairwise_cons, disjointV]
            try omega
          · rw [e]
            simp only [List.mem_cons, List.mem_singleton, List.not_mem_nil, or_false,
              exists_eq_or_imp, exists_eq_left, false_and, exists_false]
            omega
          · rw [e]
            simp only [pieceSum, List.map_cons, List.map_nil, List.sum_cons, List.sum_nil, add_zero]
            split_ifs <;>
              first
              | (exfalso; omega)
              | ring1
              | (simp only [*, add_zero, zero_add]; first | done | ring1)
      · by_cases hAB2 : one.«end» < two.«end»
        · by_cases hu : one.value = 0
          · -- case 15
            have e : mergePieces one two = [two] := by
              unfold mergePieces merge_into
              split_ifs <;> first | rfl | (exfalso; omega) | contradiction | simp_all
            refine ⟨isSome_of_mergePieces_ne_nil one two (by rw [e]; simp), ?_, fun i => ?_, fun i => ?_⟩
            · rw [e]
              simp [List.pairwise_cons, disjointV]
              try omega
            · rw [e]
              simp only [List.mem_cons, List.mem_singleton, List.not_mem_nil, or_false,
                exists_eq_or_imp, exists_eq_left, false_and, exists_false]
              omega
            · rw [e]
              simp only [pieceSum, List.map_cons, List.map_nil, List.sum_cons, List.sum_nil, add_zero]
              split_ifs <;>
                first
                | (exfalso; omega)
                | ring1
                | (simp only [*, add_zero, zero_add]; first | done | ring1)
          · -- case 16
            have e : mergePieces one two = [⟨two.start, one.start, two.value⟩, ⟨one.start, one.«end», one.value + two.value⟩, ⟨one.«end», two.«end», two.value⟩] := by
              unfold mergePieces merge_into
              split_ifs <;> first | rfl | (exfalso; omega) | contradiction | simp_all
            refine ⟨isSome_of_mergePieces_ne_nil one two (by rw [e]; simp), ?_, fun i => ?_, fun i => ?_⟩
            · rw [e]
              simp [List.pairwise_cons, disjointV]
              try omega
            · rw [e]
              simp only [List.mem_cons, List.mem_singleton, List.not_mem_nil, or_false,
                exists_eq_or_imp, exists_eq_left, false_and, exists_false]
              omega
            · rw [e]
              simp only [pieceSum, List.map_cons, List.map_nil, List.sum_cons, List.sum_nil, add_zero]
              split_ifs <;>
                first
                | (exfalso; omega)
                | ring1
                | (simp only [*, add_zero, zero_add]; first | done | ring1)
        · by_cases hu : one.value = 0
          · by_cases hv : two.value = 0
            · -- case 17
              have e : mergePieces one two = [⟨two.start, one.«end», (0 : Rat)⟩] := by
                unfold mergePieces merge_into
                split_ifs <;> first | rfl | (exfalso; omega) | contradiction | simp_all
              refine ⟨isSome_of_mergePieces_ne_nil one two (by rw [e]; simp), ?_, fun i => ?_, fun i => ?_⟩
              · rw [e]
                simp [List.pairwise_cons, disjointV]
                try omega
              · rw [e]
                simp only [List.mem_cons, List.mem_singleton, List.not_mem_nil, or_false,
                  exists_eq_or_imp, exists_eq_left, false_and, exists_false]
                omega
              · rw [e]
                simp only [pieceSum, List.map_cons, List.map_nil, List.sum_cons, List.sum_nil, add_zero]
                split_ifs <;>
                  first
                  | (exfalso; omega)
                  | ring1
                  | (simp only [*, add_zero, zero_add]; first | done | ring1)
            · -- case 18
              have e : mergePieces one two = [two, ⟨two.«end», one.«end», one.value⟩] := by
                unfold mergePieces merge_into
                split_ifs <;> first | rfl | (exfalso; omega) | contradiction | simp_all
              refine ⟨isSome_of_mergePieces_ne_nil one two (by rw [e]; simp), ?_, fun i => ?_, fun i => ?_⟩
              · rw [e]
                simp [List.pairwise_cons, disjointV]
                try omega
              · rw [e]
                simp only [List.mem_cons, List.mem_singleton, List.not_mem_nil, or_false,
                  exists_eq_or_imp, exists_eq_left, false_and, exists_false]
                omega
              · rw [e]
                simp only [pieceSum, List.map_cons, List.map_nil, List.sum_cons, List.sum_nil, add_zero]
                split_ifs <;>
                  first
                  | (exfalso; omega)
                  | ring1
                  | (simp only [*, add_zero, zero_add]; first | done | ring1)
          · by_cases hv : two.value = 0
            · -- case 19
              have e : mergePieces one two = [⟨two.start, one.start, (0 : Rat)⟩, ⟨one.start, one.«end», one.value⟩] := by
                unfold mergePieces merge_into
                split_ifs <;> first | rfl | (exfalso; omega) | contradiction | simp_all
              refine ⟨isSome_of_mergePieces_ne_nil one two (by rw [e]; simp), ?_, fun i => ?_, fun i => ?_⟩
              · rw [e]
                simp [List.pairwise_cons, disjointV]
                try omega
              · rw [e]
                simp only [List.mem_cons, List.mem_singleton, List.not_mem_nil, or_false,
                  exists_eq_or_imp, exists_eq_left, false_and, exists_false]
                omega
              · rw [e]
                simp only [pieceSum, List.map_cons, List.map_nil, List.sum_cons, List.sum_nil, add_zero]
                split_ifs <;>
                  first
                  | (exfalso; omega)
                  | ring1
                  | (simp only [*, add_zero, zero_add]; first | done | ring1)
            · -- case 20
              have e : mergePieces one two = [⟨two.start, one.start, two.value⟩, ⟨one.start, two.«end», one.value + two.value⟩, ⟨two.«end», one.«end», one.value⟩] := by
                unfold mergePieces merge_into
                split_ifs <;> first | rfl | (exfalso; omega) | contradiction | simp_all
              refine ⟨isSome_of_mergePieces_ne_nil one two (by rw [e]; simp), ?_, fun i => ?_, fun i => ?_⟩
              · rw [e]
                simp [List.pairwise_cons, disjointV]
                try omega
              · rw [e]
                simp only [List.mem_cons, List.mem_singleton, List.not_mem_nil, or_false,
                  exists_eq_or_imp, exists_eq_left, false_and, exists_false]
                omega
              · rw [e]
                simp only [pieceSum, List.map_cons, List.map_nil, List.sum_cons, List.sum_nil, add_zero]
                split_ifs <;>
                  first
                  | (exfalso; omega)
                  | ring1
                  | (simp only [*, add_zero, zero_add]; first | done | ring1)

set_option maxHeartbeats 1600000 in
/-- C10: `merge_into(one, two)` panics (returns `none` in this model) exactly
when `one.end <= two.start`; in the symmetric non-overlapping arrangement
where `two.end <= one.start` (with well-formed intervals) it returns
normally. -/
theorem merge_into_panic_iff :
    (∀ one two : Value, merge_into one two = none ↔ one.«end» ≤ two.start) ∧
    (∀ one two : Value, one.start < one.«end» → two.start < two.«end» →
      two.«end» ≤ one.start → (merge_into one two).isSome) := by
  constructor
  · intro one two
    unfold merge_into
    split_ifs <;> simp_all
  · intro one two hv1 hv2 hsym
    unfold merge_into
    split_ifs <;> simp_all <;> omega

/-- Witness for C10: a concrete overlap-violating pair panics, and a concrete
pair with `two.end <= one.start` returns normally. -/
theorem merge_into_panic_iff_witness :
    (merge_into ⟨0, 5, 1⟩ ⟨10, 12, 2⟩ = none ↔ (5 : Nat) ≤ 10) ∧
    (merge_into ⟨10, 20, 1⟩ ⟨0, 5, 2⟩).isSome :=
  ⟨merge_into_panic_iff.1 ⟨0, 5, 1⟩ ⟨10, 12, 2⟩,
    merge_into_panic_iff.2 ⟨10, 20, 1⟩ ⟨0, 5, 2⟩ (by decide) (by decide) (by decide)⟩

/-- Witness for C3: `merge_into` on the concrete overlapping pair
`[0,10)=1` and `[5,15)=2` satisfies the merge contract. -/
theorem merge_into_correct_witness :
    (merge_into ⟨0, 10, 1⟩ ⟨5, 15, 2⟩).isSome ∧
    (mergePieces ⟨0, 10, 1⟩ ⟨5, 15, 2⟩).Pairwise disjointV ∧
    (∀ i : Nat, (∃ p ∈ mergePieces ⟨0, 10, 1⟩ ⟨5, 15, 2⟩, p.start ≤ i ∧ i < p.«end») ↔
      (min 0 5 ≤ i ∧ i < max 10 15)) ∧
    (∀ i : Nat, pieceSum (mergePieces ⟨0, 10, 1⟩ ⟨5, 15, 2⟩) i =
      (if 0 ≤ i ∧ i < 10 then (1 : Rat) else 0) +
      (if 5 ≤ i ∧ i < 15 then (2 : Rat) else 0)) :=
  merge_into_correct ⟨0, 10, 1⟩ ⟨5, 15, 2⟩ (by decide) (by decide) (by decide) (by decide)


/-! ## Proofs about the merge engine -/

/-- RLE extends the current run across a constant stretch of the
accumulator. -/
theorem rleGo_const (cs : Nat) (d : Nat → Rat) (v : Rat) (acc : List Value) :
    ∀ (n m idx s e : Nat), (∀ k < n, d (idx + k) = v) →
      rleGo cs d (n + m) idx (some (s, e, v)) acc =
        rleGo cs d m (idx + n) (some (s, e + n, v)) acc := by
  intro n
  induction n with
  | zero => intro m idx s e _; simp
  | succ n ih =>
    intro m idx s e h
    have hstep : n + 1 + m = (n + m) + 1 := by omega
    rw [hstep]
    have hd : d idx = v := by have := h 0 (by omega); simpa using this
    show (let x := d idx;
      if |v - x| < F32_EPSILON then
        rleGo cs d (n + m) (idx + 1) (some (s, e + 1, v)) acc
      else if v ≠ 0 then
        rleGo cs d (n + m) (idx + 1) (some (idx + cs, idx + cs + 1, x)) (acc ++ [⟨s, e, v⟩])
      else rleGo cs d (n + m) (idx + 1) (some (idx + cs, idx + cs + 1, x)) acc) = _
    rw [hd]
    simp only [sub_self, abs_zero]
    rw [if_pos (by norm_num [F32_EPSILON])]
    rw [ih m (idx + 1) s (e + 1) (fun k hk => by
      have := h (k + 1) (by omega)
      simpa [Nat.add_assoc, Nat.add_comm, Nat.add_left_comm] using this)]
    have e1 : idx + 1 + n = idx + (n + 1) := by omega
    have e2 : e + 1 + n = e + (n + 1) := by omega
    rw [e1, e2]

/-- RLE starts a fresh run when there is no current one. -/
theorem rleGo_start (cs : Nat) (d : Nat → Rat) (n idx : Nat) (acc : List Value)
    (x : Rat) (hx : d idx = x) :
    rleGo cs d (n + 1) idx none acc =
      rleGo cs d n (idx + 1) (some (idx + cs, idx + cs + 1, x)) acc := by
  show (let y := d idx;
    rleGo cs d n (idx + 1) (some (idx + cs, idx + cs + 1, y)) acc) = _
  rw [hx]

/-- RLE pushes a non-zero run when the next cell differs by at least
`F32_EPSILON`. -/
theorem rleGo_step_ne (cs : Nat) (d : Nat → Rat) (n idx s e : Nat) (v x : Rat)
    (acc : List Value) (hx : d idx = x) (h : ¬ |v - x| < F32_EPSILON) (hv : v ≠ 0) :
    rleGo cs d (n + 1) idx (some (s, e, v)) acc =
      rleGo cs d n (idx + 1) (some (idx + cs, idx + cs + 1, x)) (acc ++ [⟨s, e, v⟩]) := by
  show (let y := d idx;
    if |v - y| < F32_EPSILON then
      rleGo cs d n (idx + 1) (some (s, e + 1, v)) acc
    else if v ≠ 0 then
      rleGo cs d n (idx + 1) (some (idx + cs, idx + cs + 1, y)) (acc ++ [⟨s, e, v⟩])
    else rleGo cs d n (idx + 1) (some (idx + cs, idx + cs + 1, y)) acc) = _
  rw [hx]
  rw [if_neg h, if_pos hv]

/-- Exhausting the window flushes a non-zero current run. -/
theorem rleGo_flush (cs : Nat) (d : Nat → Rat) (idx s e : Nat) (v : Rat) (acc : List Value) :
    rleGo cs d 0 idx (some (s, e, v)) acc =
      if v ≠ 0 then acc ++ [⟨s, e, v⟩] else acc := rfl

/-- An all-zero window encodes to nothing. -/
theorem rle_zeroData (cs : Nat) : rle cs zeroData = [] := by
  unfold rle
  rw [show DATA_SIZE = 49999 + 1 from rfl]
  rw [rleGo_start cs zeroData 49999 0 [] 0 rfl]
  rw [show (49999 : Nat) = 49999 + 0 from rfl]
  rw [rleGo_const cs zeroData 0 [] 49999 0 (0 + 1) (0 + cs) (0 + cs + 1) (fun k _ => rfl)]
  rw [rleGo_flush]
  norm_num

/-- Pointwise evaluation of the first window's accumulator for the C6
example. -/
theorem d1_eval (i : Nat) : d1 i =
    if 10 ≤ i ∧ i < 15 then 5
    else if 5 ≤ i ∧ i < 10 then 4
    else if 15 ≤ i ∧ i < 20 then 2
    else if i < 5 then 1 else 0 := by
  simp only [d1, addRange, zeroData]
  split_ifs <;> first | (exfalso; omega) | norm_num

/-- RLE of the first window's accumulator for the C6 example. -/
theorem rle_d1 : rle 0 d1 = [⟨0, 5, 1⟩, ⟨5, 10, 4⟩, ⟨10, 15, 5⟩, ⟨15, 20, 2⟩] := by
  unfold rle
  rw [show DATA_SIZE = 49999 + 1 from rfl]
  rw [rleGo_start 0 d1 49999 0 [] 1 (by rw [d1_eval]; norm_num)]
  simp only [Nat.reduceAdd]
  rw [show (49999 : Nat) = 4 + 49995 from rfl]
  rw [rleGo_const 0 d1 1 [] 4 49995 1 0 1
    (fun k hk => by rw [d1_eval]; split_ifs <;> first | (exfalso; omega) | norm_num)]
  simp only [Nat.reduceAdd]
  rw [show (49995 : Nat) = 49994 + 1 from rfl]
  rw [rleGo_step_ne 0 d1 49994 5 0 5 1 4 [] (by rw [d1_eval]; norm_num)
    (by simp only [abs_sub_lt_iff, F32_EPSILON]; norm_num) (by norm_num)]
  simp only [Nat.reduceAdd, List.nil_append]
  rw [show (49994 : Nat) = 4 + 49990 from rfl]
  rw [rleGo_const 0 d1 4 [⟨0, 5, 1⟩] 4 49990 6 5 6
    (fun k hk => by rw [d1_eval]; split_ifs <;> first | (exfalso; omega) | norm_num)]
  simp only [Nat.reduceAdd]
  rw [show (49990 : Nat) = 49989 + 1 from rfl]
  rw [rleGo_step_ne 0 d1 49989 10 5 10 4 5 [⟨0, 5, 1⟩] (by rw [d1_eval]; norm_num)
    (by simp only [abs_sub_lt_iff, F32_EPSILON]; norm_num) (by norm_num)]
  simp only [Nat.reduceAdd, List.cons_append, List.nil_append]
  rw [show (49989 : Nat) = 4 + 49985 from rfl]
  rw [rleGo_const 0 d1 5 [⟨0, 5, 1⟩, ⟨5, 10, 4⟩] 4 49985 11 10 11
    (fun k hk => by rw [d1_eval]; split_ifs <;> first | (exfalso; omega) | norm_num)]
  simp only [Nat.reduceAdd]
  rw [show (49985 : Nat) = 49984 + 1 from rfl]
  rw [rleGo_step_ne 0 d1 49984 15 10 15 5 2 [⟨0, 5, 1⟩, ⟨5, 10, 4⟩] (by rw [d1_eval]; norm_num)
    (by simp only [abs_sub_lt_iff, F32_EPSILON]; norm_num) (by norm_num)]
  simp only [Nat.reduceAdd, List.cons_append, List.nil_append]
  rw [show (49984 : Nat) = 4 + 49980 from rfl]
  rw [rleGo_const 0 d1 2 [⟨0, 5, 1⟩, ⟨5, 10, 4⟩, ⟨10, 15, 5⟩] 4 49980 16 15 16
    (fun k hk => by rw [d1_eval]; split_ifs <;> first | (exfalso; omega) | norm_num)]
  simp only [Nat.reduceAdd]
  rw [show (49980 : Nat) = 49979 + 1 from rfl]
  rw [rleGo_step_ne 0 d1 49979 20 15 20 2 0 [⟨0, 5, 1⟩, ⟨5, 10, 4⟩, ⟨10, 15, 5⟩]
    (by rw [d1_eval]; norm_num)
    (by simp only [abs_sub_lt_iff, F32_EPSILON]; norm_num) (by norm_num)]
  simp only [Nat.reduceAdd, List.cons_append, List.nil_append]
  rw [show (49979 : Nat) = 49979 + 0 from rfl]
  rw [rleGo_const 0 d1 0 [⟨0, 5, 1⟩, ⟨5, 10, 4⟩, ⟨10, 15, 5⟩, ⟨15, 20, 2⟩] 49979 0 21 20 21
    (fun k hk => by rw [d1_eval]; split_ifs <;> first | (exfalso; omega) | norm_num)]
  rw [rleGo_flush]
  norm_num

/-- The first window of the C6 example: consume both sections, encode, emit
all but the last run. -/
theorem windowStep_w1 :
    windowStep ⟨[([⟨0, 10, 1⟩, ⟨10, 20, 2⟩], none), ([⟨5, 15, 3⟩], none)], none, 0⟩ =
      some ([⟨0, 5, 1⟩, ⟨5, 10, 4⟩, ⟨10, 15, 5⟩], false,
        ⟨[([], none), ([], none)], some ⟨15, 20, 2⟩, 50000⟩) := by
  show windowRest2 0 (rle 0 d1) ([([], none), ([], none)], true) none = _
  rw [rle_d1]
  rfl

/-- The second window of the C6 example: sections exhausted, the carried
`last_val` is reinserted and retained; `all_none` is reported. -/
theorem windowStep_w2 :
    windowStep ⟨[([], none), ([], none)], some ⟨15, 20, 2⟩, 50000⟩ =
      some ([], true, ⟨[([], none), ([], none)], some ⟨15, 20, 2⟩, 100000⟩) := by
  show windowRest2 50000 (rle 50000 zeroData) ([([], none), ([], none)], false)
    (some ⟨15, 20, 2⟩) = _
  rw [rle_zeroData]
  rfl

/-- C6: merging the coordinate-sorted streams `[0,10)=1, [10,20)=2` and
`[5,15)=3` yields exactly `[0,5)=1, [5,10)=4, [10,15)=5, [15,20)=2`, in that
order. -/
theorem merge_sections_many_example :
    merge_sections_many [[⟨0, 10, 1⟩, ⟨10, 20, 2⟩], [⟨5, 15, 3⟩]] 5 =
      some [⟨0, 5, 1⟩, ⟨5, 10, 4⟩, ⟨10, 15, 5⟩, ⟨15, 20, 2⟩] := by
  have hr2 : runMerge 4 ⟨[([], none), ([], none)], some ⟨15, 20, 2⟩, 50000⟩ =
      some [⟨15, 20, 2⟩] := by
    rw [show (4 : Nat) = 3 + 1 from rfl]
    rw [runMerge]
    rw [windowStep_w2]
    rfl
  show runMerge (4 + 1) ⟨[([⟨0, 10, 1⟩, ⟨10, 20, 2⟩], none), ([⟨5, 15, 3⟩], none)], none, 0⟩ = _
  rw [runMerge]
  rw [windowStep_w1]
  dsimp only
  rw [if_pos (show ([⟨0, 5, 1⟩, ⟨5, 10, 4⟩, ⟨10, 15, 5⟩] : List Value) ≠ [] by simp)]
  rw [hr2]
  rfl

/-- C7: `fill_start_to_end(5, 50)` on the input stream
`[10,15)=0.5, [20,30)=0.7, [30,35)=0.9` yields exactly
`[5,10)=0, [10,15)=0.5, [15,20)=0, [20,30)=0.7, [30,35)=0.9, [35,50)=0`,
in that order. -/
theorem fill_start_to_end_example :
    runFill 20 (fill_start_to_end
        [.ok ⟨10, 15, 1/2⟩, .ok ⟨20, 30, 7/10⟩, .ok ⟨30, 35, 9/10⟩] 5 50) =
      [.ok ⟨5, 10, 0⟩, .ok ⟨10, 15, 1/2⟩, .ok ⟨15, 20, 0⟩, .ok ⟨20, 30, 7/10⟩,
        .ok ⟨30, 35, 9/10⟩, .ok ⟨35, 50, 0⟩] := rfl


/-! ## Proofs about opening, block decoding, and the tree search -/

/-- C5: the first four bytes equal to the big-endian encoding of the BigWig
or BigBed magic open the file big-endian; the little-endian encodings open it
little-endian; any other four bytes fail with `UnknownMagic`. -/
theorem read_info_magic_correct (b0 b1 b2 b3 : Nat)
    (h0 : b0 < 256) (h1 : b1 < 256) (h2 : b2 < 256) (h3 : b3 < 256) :
    (read_info_magic b0 b1 b2 b3 = .ok (.bigWig, .big) ↔
      [b0, b1, b2, b3] = beBytesSpec BIGWIG_MAGIC) ∧
    (read_info_magic b0 b1 b2 b3 = .ok (.bigBed, .big) ↔
      [b0, b1, b2, b3] = beBytesSpec BIGBED_MAGIC) ∧
    (read_info_magic b0 b1 b2 b3 = .ok (.bigWig, .little) ↔
      [b0, b1, b2, b3] = leBytesSpec BIGWIG_MAGIC) ∧
    (read_info_magic b0 b1 b2 b3 = .ok (.bigBed, .little) ↔
      [b0, b1, b2, b3] = leBytesSpec BIGBED_MAGIC) ∧
    (read_info_magic b0 b1 b2 b3 = .error .UnknownMagic ↔
      ([b0, b1, b2, b3] ≠ beBytesSpec BIGWIG_MAGIC ∧
       [b0, b1, b2, b3] ≠ beBytesSpec BIGBED_MAGIC ∧
       [b0, b1, b2, b3] ≠ leBytesSpec BIGWIG_MAGIC ∧
       [b0, b1, b2, b3] ≠ leBytesSpec BIGBED_MAGIC)) := by
  have hbw : get_u32_be b0 b1 b2 b3 = u32_to_le BIGWIG_MAGIC ↔
      [b0, b1, b2, b3] = beBytesSpec BIGWIG_MAGIC := by
    simp only [get_u32_be, u32_to_le, beBytesSpec, BIGWIG_MAGIC, List.cons.injEq, and_true]
    norm_num
    omega
  have hlw : get_u32_be b0 b1 b2 b3 = u32_to_be BIGWIG_MAGIC ↔
      [b0, b1, b2, b3] = leBytesSpec BIGWIG_MAGIC := by
    simp only [get_u32_be, u32_to_be, u32_swap_bytes, leBytesSpec, BIGWIG_MAGIC,
      List.cons.injEq, and_true]
    norm_num
    omega
  have hbb : get_u32_be b0 b1 b2 b3 = u32_to_le BIGBED_MAGIC ↔
      [b0, b1, b2, b3] = beBytesSpec BIGBED_MAGIC := by
    simp only [get_u32_be, u32_to_le, beBytesSpec, BIGBED_MAGIC, List.cons.injEq, and_true]
    norm_num
    omega
  have hlb : get_u32_be b0 b1 b2 b3 = u32_to_be BIGBED_MAGIC ↔
      [b0, b1, b2, b3] = leBytesSpec BIGBED_MAGIC := by
    simp only [get_u32_be, u32_to_be, u32_swap_bytes, leBytesSpec, BIGBED_MAGIC,
      List.cons.injEq, and_true]
    norm_num
    omega
  simp only [read_info_magic]
  split_ifs with g1 g2 g3 g4 <;>
    simp_all [beBytesSpec, leBytesSpec, BIGWIG_MAGIC, BIGBED_MAGIC]

/-- Witness for C5: the big-endian BigWig magic bytes. -/
theorem read_info_magic_correct_witness :
    (read_info_magic 136 143 252 38 = .ok (.bigWig, .big) ↔
      [136, 143, 252, 38] = beBytesSpec BIGWIG_MAGIC) ∧
    (read_info_magic 136 143 252 38 = .ok (.bigBed, .big) ↔
      [136, 143, 252, 38] = beBytesSpec BIGBED_MAGIC) ∧
    (read_info_magic 136 143 252 38 = .ok (.bigWig, .little) ↔
      [136, 143, 252, 38] = leBytesSpec BIGWIG_MAGIC) ∧
    (read_info_magic 136 143 252 38 = .ok (.bigBed, .little) ↔
      [136, 143, 252, 38] = leBytesSpec BIGBED_MAGIC) ∧
    (read_info_magic 136 143 252 38 = .error .UnknownMagic ↔
      ([136, 143, 252, 38] ≠ beBytesSpec BIGWIG_MAGIC ∧
       [136, 143, 252, 38] ≠ beBytesSpec BIGBED_MAGIC ∧
       [136, 143, 252, 38] ≠ leBytesSpec BIGWIG_MAGIC ∧
       [136, 143, 252, 38] ≠ leBytesSpec BIGBED_MAGIC)) :=
  read_info_magic_correct 136 143 252 38 (by decide) (by decide) (by decide) (by decide)

/-- `read_u32` inverts `encodeU32`. -/
theorem read_u32_encodeU32 (en : Endianness) (x : Nat) (bs : Bytes) :
    read_u32 en (encodeU32 en x ++ bs) = some (x % 4294967296, bs) := by
  cases en <;> simp only [encodeU32, read_u32, List.cons_append, List.nil_append,
    Option.some.injEq, Prod.mk.injEq, and_true] <;> omega

/-- C1 (amended): every BigBed entry emitted from a data block satisfies the
non-strict bounds `entry.end >= start` and `entry.start <= end`, and every
zoom record emitted from a zoom block additionally has the queried
chromosome; the source filters are non-strict
(`entry.end >= start && entry.start <= end`, bigbedread.rs 318, and
`chrom_end >= start && chrom_start <= end`, bbiread.rs 785/812), not strict
as the claim states. -/
theorem block_entries_filter_bounds :
    (∀ (en : Endianness) (ch s e : Nat) (bs : Bytes) (l : List BedEntry),
      get_block_entries en ch s e bs = some l →
      ∀ entry ∈ l, s ≤ entry.«end» ∧ entry.start ≤ e) ∧
    (∀ (en : Endianness) (ch s e : Nat) (bs : Bytes) (l : List ZoomRecord),
      get_zoom_block_values en ch s e bs = some l →
      ∀ r ∈ l, r.chrom = ch ∧ s ≤ r.«end» ∧ r.start ≤ e) := by
  constructor
  · have go : ∀ (en : Endianness) (ch s e fuel : Nat) (bs : Bytes) (acc l : List BedEntry),
        (∀ a ∈ acc, s ≤ a.«end» ∧ a.start ≤ e) →
        get_block_entries_go en ch s e fuel bs acc = some l →
        ∀ entry ∈ l, s ≤ entry.«end» ∧ entry.start ≤ e := by
      intro en ch s e fuel
      induction fuel with
      | zero => intro bs acc l _ h; simp [get_block_entries_go] at h
      | succ fuel ih =>
        intro bs acc l hacc h
        rw [get_block_entries_go] at h
        rcases hre : read_entry en ch bs with ⟨entry, rest⟩ | _ | _ <;> rw [hre] at h
        · refine ih rest _ l ?_ h
          intro a ha
          by_cases hf : s ≤ entry.«end» ∧ entry.start ≤ e
          · rw [if_pos hf] at ha
            rcases List.mem_append.mp ha with h1 | h1
            · exact hacc a h1
            · simp at h1; subst h1; exact hf
          · rw [if_neg hf] at ha
            exact hacc a ha
        · cases h; exact hacc
        · cases h; exact hacc
        · exact absurd h (by simp)
    intro en ch s e bs l h
    exact go en ch s e (bs.length + 1) bs [] l (by simp) h
  · have go : ∀ (en : Endianness) (ch s e n : Nat) (bs : Bytes) (acc l : List ZoomRecord),
        (∀ a ∈ acc, a.chrom = ch ∧ s ≤ a.«end» ∧ a.start ≤ e) →
        zoom_records_go en ch s e n bs acc = some l →
        ∀ r ∈ l, r.chrom = ch ∧ s ≤ r.«end» ∧ r.start ≤ e := by
      intro en ch s e n
      induction n with
      | zero => intro bs acc l hacc h; cases h; exact hacc
      | succ n ih =>
        intro bs acc l hacc h
        rw [zoom_records_go] at h
        rcases hrr : read_zoom_record en bs with _ | ⟨r, rest⟩ <;> rw [hrr] at h
        · exact absurd h (by simp)
        · refine ih rest _ l ?_ h
          intro a ha
          by_cases hf : r.chrom = ch ∧ s ≤ r.«end» ∧ r.start ≤ e
          · rw [if_pos hf] at ha
            rcases List.mem_append.mp ha with h1 | h1
            · exact hacc a h1
            · simp at h1; subst h1; exact hf
          · rw [if_neg hf] at ha
            exact hacc a ha
    intro en ch s e bs l h
    rw [get_zoom_block_values] at h
    split_ifs at h
    exact go en ch s e (bs.length / 32) bs [] l (by simp) h

/-- Counterexample for C1 as stated: with query `start = 10, end = 20` a
record `[20, 25)` is emitted (it touches the query end), violating the
claimed strict `record.start < end`. -/
theorem boundary_entry_emitted :
    get_block_entries .little 0 10 20 [0, 0, 0, 0, 20, 0, 0, 0, 25, 0, 0, 0] =
      some [⟨20, 25, []⟩] ∧
    ¬ ((20 : Nat) < 20) := ⟨rfl, by omega⟩

/-- C2 (amended): a record with `start == 0 && end == 0` makes `read_entry`
return the `InvalidFile` error, but the `while let Ok(..)` loop swallows it:
decoding of the block simply stops and the entries collected so far are
returned as `Ok`; no error is surfaced. -/
theorem zero_zero_stops_block :
    (∀ (en : Endianness) (ch s e fuel : Nat) (bs : Bytes) (acc : List BedEntry),
      read_entry en ch bs = .invalidFileErr →
      get_block_entries_go en ch s e (fuel + 1) bs acc = some acc) ∧
    (∀ (en : Endianness) (ch v s e : Nat) (rest : Bytes),
      get_block_entries en ch s e
        (encodeU32 en v ++ (encodeU32 en 0 ++ (encodeU32 en 0 ++ rest))) = some []) := by
  have h1 : ∀ (en : Endianness) (ch s e fuel : Nat) (bs : Bytes) (acc : List BedEntry),
      read_entry en ch bs = .invalidFileErr →
      get_block_entries_go en ch s e (fuel + 1) bs acc = some acc := by
    intro en ch s e fuel bs acc h
    rw [get_block_entries_go, h]
  refine ⟨h1, ?_⟩
  intro en ch v s e rest
  rw [get_block_entries]
  exact h1 en ch s e _ _ [] (by
    unfold read_entry
    rw [read_u32_encodeU32]
    dsimp only
    rw [read_u32_encodeU32]
    dsimp only
    rw [read_u32_encodeU32]
    dsimp only
    norm_num)

/-- Counterexample for C2 as stated: a block holding the record
`(chrom 0, [10, 20), "")` followed by a `start == end == 0` record yields
the single `Ok` item and no `InvalidFile` (or any other) error item. -/
theorem zero_zero_no_error_item :
    intervalIterItems .little 0 0 100
        [[0, 0, 0, 0, 10, 0, 0, 0, 20, 0, 0, 0, 0, 0, 0, 0, 0, 0, 0, 0, 0, 0, 0, 0, 0]] =
      some [Except.ok ⟨10, 20, []⟩] ∧
    ∀ item ∈ ([Except.ok ⟨10, 20, []⟩] : List (Except BBIReadError BedEntry)),
      ∀ err : BBIReadError, item ≠ Except.error err := by
  constructor
  · rfl
  · intro item hi err
    simp only [List.mem_singleton] at hi
    subst hi
    simp

/-- C9: every zoom record produced by a zoom-interval query has
`summary.total_items = 0`; the reader never populates it from disk. -/
theorem zoom_total_items_zero :
    ∀ (en : Endianness) (chrom s e : Nat) (blocks : List Bytes)
      (items : List (Except BBIReadError ZoomRecord)),
      zoomIterItems en chrom s e blocks = some items →
      ∀ item ∈ items, ∀ r : ZoomRecord, item = .ok r → r.summary.total_items = 0 := by
  have goRec : ∀ (en : Endianness) (bs : Bytes) (r : ZoomRecord) (rest : Bytes),
      read_zoom_record en bs = some (r, rest) → r.summary.total_items = 0 := by
    intro en bs r rest h
    unfold read_zoom_record at h
    rcases h1 : read_u32 en bs with _ | ⟨a1, t1⟩ <;> rw [h1] at h
    · simp at h
    dsimp only at h
    rcases h2 : read_u32 en t1 with _ | ⟨a2, t2⟩ <;> rw [h2] at h
    · simp at h
    dsimp only at h
    rcases h3 : read_u32 en t2 with _ | ⟨a3, t3⟩ <;> rw [h3] at h
    · simp at h
    dsimp only at h
    rcases h4 : read_u32 en t3 with _ | ⟨a4, t4⟩ <;> rw [h4] at h
    · simp at h
    dsimp only at h
    rcases h5 : read_u32 en t4 with _ | ⟨a5, t5⟩ <;> rw [h5] at h
    · simp at h
    dsimp only at h
    rcases h6 : read_u32 en t5 with _ | ⟨a6, t6⟩ <;> rw [h6] at h
    · simp at h
    dsimp only at h
    rcases h7 : read_u32 en t6 with _ | ⟨a7, t7⟩ <;> rw [h7] at h
    · simp at h
    dsimp only at h
    rcases h8 : read_u32 en t7 with _ | ⟨a8, t8⟩ <;> rw [h8] at h
    · simp at h
    dsimp only at h
    simp only [Option.some.injEq, Prod.mk.injEq] at h
    rw [← h.1]
  have go : ∀ (en : Endianness) (chrom s e n : Nat) (bs : Bytes) (acc l : List ZoomRecord),
      (∀ a ∈ acc, a.summary.total_items = 0) →
      zoom_records_go en chrom s e n bs acc = some l →
      ∀ r ∈ l, r.summary.total_items = 0 := by
    intro en chrom s e n
    induction n with
    | zero => intro bs acc l hacc h; cases h; exact hacc
    | succ n ih =>
      intro bs acc l hacc h
      rw [zoom_records_go] at h
      rcases hrr : read_zoom_record en bs with _ | ⟨r, rest⟩ <;> rw [hrr] at h
      · exact absurd h (by simp)
      · refine ih rest _ l ?_ h
        intro a ha
        by_cases hf : r.chrom = chrom ∧ s ≤ r.«end» ∧ r.start ≤ e
        · rw [if_pos hf] at ha
          rcases List.mem_append.mp ha with h1 | h1
          · exact hacc a h1
          · simp at h1; rw [h1]; exact goRec en bs r rest hrr
        · rw [if_neg hf] at ha
          exact hacc a ha
  have gb : ∀ (en : Endianness) (chrom s e : Nat) (bs : Bytes) (l : List ZoomRecord),
      get_zoom_block_values en chrom s e bs = some l →
      ∀ r ∈ l, r.summary.total_items = 0 := by
    intro en chrom s e bs l h
    rw [get_zoom_block_values] at h
    split_ifs at h
    exact go en chrom s e (bs.length / 32) bs [] l (by simp) h
  intro en chrom s e blocks
  induction blocks with
  | nil =>
    intro items h item hi r hr
    cases h
    simp at hi
  | cons b restBlocks ih =>
    intro items h item hi r hr
    rw [zoomIterItems] at h
    rcases hb : get_zoom_block_values en chrom s e b with _ | recs <;> rw [hb] at h
    · exact absurd h (by simp)
    · rcases hrest : zoomIterItems en chrom s e restBlocks with _ | restItems <;>
        rw [hrest] at h
      · exact absurd h (by simp)
      · simp only [Option.map_some'] at h
        cases h
        rcases List.mem_append.mp hi with h1 | h1
        · rcases List.mem_map.mp h1 with ⟨rec, hrec, hok⟩
          rw [← hok] at hr
          cases hr
          exact gb en chrom s e b recs hb r hrec
        · exact ih restItems hrest item h1 r hr

/-! ### CIR-tree search -/

theorem compare_position_le_zero (c1 b1 c2 b2 : Nat) :
    compare_position c1 b1 c2 b2 ≤ 0 ↔ c1 < c2 ∨ (c1 = c2 ∧ b1 ≤ b2) := by
  unfold compare_position
  split_ifs <;> omega

theorem compare_position_ge_zero (c1 b1 c2 b2 : Nat) :
    0 ≤ compare_position c1 b1 c2 b2 ↔ c2 < c1 ∨ (c1 = c2 ∧ b2 ≤ b1) := by
  unfold compare_position
  split_ifs <;> omega

theorem overlaps_of_contained (c s e : Nat) (en : CirLeafEntry) (b : CirEntryBounds)
    (hc : containedIn en b = true) (ho : overlapsBounds c s e en.bounds = true) :
    overlapsBounds c s e b = true := by
  simp only [containedIn, overlapsBounds, overlaps, Bool.and_eq_true, decide_eq_true_eq,
    compare_position_le_zero, compare_position_ge_zero] at *
  omega

theorem search_eq_aux (c s e : Nat) : ∀ (t : CirTree), wellFormed t = true →
    search_overlapping_blocks t c s e =
      ((inorderEntries t).filter (fun en => overlapsBounds c s e en.bounds)).map
        (fun en => ⟨en.data_offset, en.data_size⟩) := by
  intro t
  match t with
  | .leaf entries => intro _; simp only [search_overlapping_blocks, inorderEntries]
  | .node [] => intro _; simp only [search_overlapping_blocks, inorderEntries, List.filter_nil,
      List.map_nil]
  | .node ((b, child) :: rest) =>
    intro hwf
    simp only [wellFormed, Bool.and_eq_true, List.all_eq_true] at hwf
    obtain ⟨⟨hcont, hwfc⟩, hwfr⟩ := hwf
    have ihc := search_eq_aux c s e child hwfc
    have ihr := search_eq_aux c s e (.node rest) hwfr
    simp only [search_overlapping_blocks, inorderEntries, List.filter_append, List.map_append]
    by_cases hb : overlapsBounds c s e b = true
    · rw [if_pos hb, ihc, ihr]
    · rw [if_neg hb, ihr]
      have hnil : (inorderEntries child).filter
          (fun en => overlapsBounds c s e en.bounds) = [] := by
        apply List.filter_eq_nil_iff.mpr
        intro en hen hov
        exact hb (overlaps_of_contained c s e en b (hcont en hen) hov)
      rw [hnil]
      simp

/-- C4: on a well-formed CIR tree, `search_overlapping_blocks` returns
exactly the blocks of the leaf entries whose bounds overlap the query, in
the tree's in-order traversal order; in particular no overlapping leaf entry
is omitted. -/
theorem search_overlapping_blocks_correct (t : CirTree) (chrom_ix start stop : Nat)
    (h : wellFormed t = true) :
    search_overlapping_blocks t chrom_ix start stop =
      ((inorderEntries t).filter (fun en => overlapsBounds chrom_ix start stop en.bounds)).map
        (fun en => ⟨en.data_offset, en.data_size⟩) ∧
    (∀ en ∈ inorderEntries t, overlapsBounds chrom_ix start stop en.bounds = true →
      (⟨en.data_offset, en.data_size⟩ : Block) ∈
        search_overlapping_blocks t chrom_ix start stop) := by
  have he := search_eq_aux chrom_ix start stop t h
  refine ⟨he, fun en hen hov => ?_⟩
  rw [he]
  exact List.mem_map_of_mem _ (List.mem_filter.mpr ⟨hen, hov⟩)

/-- Witness for C4: a two-level concrete tree where only the first child
overlaps the query. -/
theorem search_overlapping_blocks_correct_witness :
    search_overlapping_blocks
        (.node [(⟨0, 0, 0, 100⟩, .leaf [⟨⟨0, 10, 0, 20⟩, 111, 5⟩]),
          (⟨1, 0, 1, 50⟩, .leaf [⟨⟨1, 0, 1, 50⟩, 222, 7⟩])]) 0 0 30 =
      ((inorderEntries
        (.node [(⟨0, 0, 0, 100⟩, .leaf [⟨⟨0, 10, 0, 20⟩, 111, 5⟩]),
          (⟨1, 0, 1, 50⟩, .leaf [⟨⟨1, 0, 1, 50⟩, 222, 7⟩])])).filter
            (fun en => overlapsBounds 0 0 30 en.bounds)).map
          (fun en => ⟨en.data_offset, en.data_size⟩) ∧
    (∀ en ∈ inorderEntries
        (.node [(⟨0, 0, 0, 100⟩, .leaf [⟨⟨0, 10, 0, 20⟩, 111, 5⟩]),
          (⟨1, 0, 1, 50⟩, .leaf [⟨⟨1, 0, 1, 50⟩, 222, 7⟩])]),
      overlapsBounds 0 0 30 en.bounds = true →
      (⟨en.data_offset, en.data_size⟩ : Block) ∈
        search_overlapping_blocks
          (.node [(⟨0, 0, 0, 100⟩, .leaf [⟨⟨0, 10, 0, 20⟩, 111, 5⟩]),
            (⟨1, 0, 1, 50⟩, .leaf [⟨⟨1, 0, 1, 50⟩, 222, 7⟩])]) 0 0 30) :=
  search_overlapping_blocks_correct
    (.node [(⟨0, 0, 0, 100⟩, .leaf [⟨⟨0, 10, 0, 20⟩, 111, 5⟩]),
      (⟨1, 0, 1, 50⟩, .leaf [⟨⟨1, 0, 1, 50⟩, 222, 7⟩])]) 0 0 30
    (by simp [wellFormed, inorderEntries, containedIn, compare_position])

/-- C8: a `get_interval` query for a chromosome name absent from the
chromosome list returns the `InvalidChromosome` error carrying that name,
before touching the tree or any block, and emits no records. -/
theorem get_interval_invalid_chromosome (chrom_info : List ChromInfo) (en : Endianness)
    (cirMagic : Nat) (tree : CirTree) (blockData : Block → Bytes) (chrom_name : String)
    (start stop : Nat) (h : ∀ ci ∈ chrom_info, ci.name ≠ chrom_name) :
    get_interval chrom_info en cirMagic tree blockData chrom_name start stop =
      some (.error (.InvalidChromosome chrom_name)) := by
  have hf : chrom_info.find? (fun x => x.name == chrom_name) = none := by
    apply List.find?_eq_none.mpr
    intro x hx
    simpa using h x hx
  unfold get_interval search_cir_tree
  rw [hf]
  rfl

/-- Witness for C8: querying `chrZZ` on a file knowing only `chr1`. -/
theorem get_interval_invalid_chromosome_witness :
    get_interval [⟨"chr1", 1000, 0⟩] .little CIR_TREE_MAGIC (.leaf [])
        (fun _ => []) "chrZZ" 0 100 =
      some (.error (.InvalidChromosome "chrZZ")) :=
  get_interval_invalid_chromosome [⟨"chr1", 1000, 0⟩] .little CIR_TREE_MAGIC (.leaf [])
    (fun _ => []) "chrZZ" 0 100 (by decide)


/-- Witness for the amended C1: the boundary-touching record decoded above
satisfies the non-strict bounds. -/
theorem block_entries_filter_bounds_witness :
    (10 : Nat) ≤ 25 ∧ (20 : Nat) ≤ 20 :=
  block_entries_filter_bounds.1 .little 0 10 20 [0, 0, 0, 0, 20, 0, 0, 0, 25, 0, 0, 0]
    [⟨20, 25, []⟩] rfl ⟨20, 25, []⟩ (by simp)

/-- Witness for the amended C2: a block that is a single zero-zero record
decodes to `Ok []`. -/
theorem zero_zero_stops_block_witness :
    get_block_entries_go .little 0 0 100 1
      [0, 0, 0, 0, 0, 0, 0, 0, 0, 0, 0, 0] [] = some [] :=
  zero_zero_stops_block.1 .little 0 0 100 0 [0, 0, 0, 0, 0, 0, 0, 0, 0, 0, 0, 0] [] rfl

/-- Witness for C9: a zoom query over one all-zero 32-byte block. -/
theorem zoom_total_items_zero_witness :
    (⟨0, 0, 0, ⟨0, 0, 0, 0, 0, 0⟩⟩ : ZoomRecord).summary.total_items = 0 :=
  zoom_total_items_zero .little 0 0 10
    [[0, 0, 0, 0, 0, 0, 0, 0, 0, 0, 0, 0, 0, 0, 0, 0,
      0, 0, 0, 0, 0, 0, 0, 0, 0, 0, 0, 0, 0, 0, 0, 0]]
    [Except.ok ⟨0, 0, 0, ⟨0, 0, 0, 0, 0, 0⟩⟩] rfl
    (Except.ok ⟨0, 0, 0, ⟨0, 0, 0, 0, 0, 0⟩⟩) (by simp) ⟨0, 0, 0, ⟨0, 0, 0, 0, 0, 0⟩⟩ rfl

end Bigtools
